import Mathlib

/-!
A verification development for the mailer repository (mailer.py and
mailer_sendgrid.py): templated bulk email dispatch with placeholder
substitution, MIME composition and a sequential per-recipient send loop.

Python strings are modelled as lists of characters.  The Python string
primitives used by the program (str.replace, str.split, str.startswith,
str.endswith, ntpath.basename, mimetypes.guess_type) are embedded as
executable functions; file existence, MIME lookup and the network are
oracle parameters.  Python dicts are insertion-ordered association lists.
-/

namespace Mailer

/-- Python strings, modelled as lists of characters. -/
abbrev Str := List Char

/-- The characters of a Lean string literal. -/
def lit (s : String) : Str := s.toList

/-- Python str.replace, fuelled so that it is structurally recursive and
kernel-computable.  Scans left to right; at each position, if the pattern
is a (non-empty) prefix it is consumed and the replacement emitted,
otherwise one character is kept.  An empty pattern inserts the
replacement at every position, as Python does.  The fuel bounds the
number of kept-or-consumed positions; fuel at least the length of the
string makes the zero-fuel arm unreachable. -/
def pyReplaceAux (pat rep : Str) : Nat → Str → Str
  | _, [] => if pat = [] then rep else []
  | 0, s => s
  | fuel+1, c :: rest =>
    if pat ≠ [] ∧ pat.isPrefixOf (c :: rest) then
      rep ++ pyReplaceAux pat rep fuel ((c :: rest).drop pat.length)
    else if pat = [] then
      rep ++ c :: pyReplaceAux pat rep fuel rest
    else
      c :: pyReplaceAux pat rep fuel rest

/-- Python s.replace(pat, rep): all occurrences, leftmost, non-overlapping,
literal (non-regex). -/
def pyReplace (pat rep s : Str) : Str := pyReplaceAux pat rep s.length s

/-- Python str.split with a non-empty separator, fuelled like pyReplaceAux.
Always returns a non-empty list; no collapsing of adjacent separators.
(Python raises on an empty separator; the configuration separators of the
program are non-empty, and an empty separator here just never matches.) -/
def pySplitAux (sep : Str) : Nat → Str → List Str
  | _, [] => [[]]
  | 0, s => [s]
  | fuel+1, c :: rest =>
    if sep ≠ [] ∧ sep.isPrefixOf (c :: rest) then
      [] :: pySplitAux sep fuel ((c :: rest).drop sep.length)
    else
      match pySplitAux sep fuel rest with
      | [] => [[c]]
      | t :: ts => (c :: t) :: ts

/-- Python s.split(sep). -/
def pySplit (sep s : Str) : List Str := pySplitAux sep s.length s

/-- Python s.startswith(pre). -/
def pyStartswith (pre s : Str) : Bool := pre.isPrefixOf s

/-- Python s.endswith(suf). -/
def pyEndswith (suf s : Str) : Bool := suf.isSuffixOf s

/-- Assignment d[k] = v into a Python dict modelled as an
insertion-ordered association list: an existing key keeps its position
and gets the new value, a new key is appended at the end. -/
def dictInsert (d : List (Str × Nat)) (k : Str) (v : Nat) : List (Str × Nat) :=
  if d.any (fun p => p.1 == k) then
    d.map (fun p => if p.1 == k then (k, v) else p)
  else d ++ [(k, v)]

/-- mailer.py lines 132-138 (identical in mailer_sendgrid.py): the
placeholder map is built from the header row; a column whose value starts
and ends with two bars is a placeholder, mapped to its column index. -/
def buildPlaceholders (columnas : List Str) : List (Str × Nat) :=
  (columnas.enum).foldl
    (fun d iv =>
      if pyStartswith (lit "||") iv.2 ∧ pyEndswith (lit "||") iv.2 then
        dictInsert d iv.2 iv.1
      else d)
    []

/-- mailer.py lines 156-159: the substitution loop over placeholders.items(),
replacing each token in the subject and the body by i[v].  Python raises
IndexError (modelled as none) as soon as some i[v] is out of range. -/
def mergeRecord : List (Str × Nat) → List Str → Str × Str → Option (Str × Str)
  | [], _, ab => some ab
  | (k, v) :: rest, i, (a, b) =>
    match i.get? v with
    | none => none
    | some val => mergeRecord rest i (pyReplace k val a, pyReplace k val b)

/-- The same substitution loop acting on a single string. -/
def applyPlaceholders : List (Str × Nat) → List Str → Str → Option Str
  | [], _, s => some s
  | (k, v) :: rest, i, s =>
    match i.get? v with
    | none => none
    | some val => applyPlaceholders rest i (pyReplace k val s)

/-- The literal text of the inline disposition value. -/
def inlineStr : Str := lit "inline"

/-- The literal text of the attachment disposition value. -/
def attachmentStr : Str := lit "attachment"

/-- mailer.py lines 185-189: an attachment specifier strictly longer than
two characters whose first two characters are the inline marker is
stripped of the marker and gets inline disposition; anything else keeps
the whole specifier as path with attachment disposition. -/
def parseSpec (filename : Str) : Str × Str :=
  if filename.length > 2 ∧ filename.take 2 = lit "i|" then
    (inlineStr, filename.drop 2)
  else
    (attachmentStr, filename)

/-- Path separator on Windows paths as ntpath sees them (sep and altsep). -/
def isSep (c : Char) : Bool := c = '/' ∨ c = '\\'

/-- ntpath.splitdrive, returning only the part after the drive: a UNC
prefix of the two leading separators plus two components is a drive, and
otherwise a second character that is a colon makes the first two
characters a drive. -/
def splitdriveRest (p : Str) : Str :=
  match p with
  | c1 :: c2 :: r =>
    if isSep c1 && isSep c2 && (match r with | c3 :: _ => ! isSep c3 | [] => true) then
      match r.findIdx? (fun c => isSep c) with
      | none => p
      | some i =>
        match ((r.drop (i+1)).findIdx? (fun c => isSep c) : Option Nat) with
        | none => []
        | some j => if j = 0 then p else (r.drop (i+1)).drop j
    else if c2 = ':' then r
    else p
  | _ => p

/-- The tail after the last path separator (the while loop of ntpath.split). -/
def afterLastSep (p : Str) : Str :=
  p.foldl (fun acc c => if isSep c then [] else acc ++ [c]) []

/-- ntpath.basename: drop the drive, then keep what follows the last
separator. -/
def ntBasename (p : Str) : Str := afterLastSep (splitdriveRest p)

/-- One MIME attachment part, as far as the headers set by the program go. -/
structure Part where
  disposition : Str
  filenameParam : Str
  contentId : Option Str
  ctype : Str
deriving DecidableEq

/-- The generic bag-of-bits content type. -/
def octetStream : Str := lit "application/octet-stream"

/-- mailer.py lines 196-200: mimetypes.guess_type is an oracle returning
(ctype, encoding); no guess or an encoded file falls back to
application/octet-stream. -/
def resolveCtype (guess : Str → Option Str × Option Str) (filename : Str) : Str :=
  match guess filename with
  | (some ct, none) => ct
  | _ => octetStream

/-- mailer.py lines 182-227: one attachment specifier to an optional part.
The marker is parsed first, the (stripped) path is checked with
os.path.isfile (continue when missing), the content type is guessed from
the stripped path, and the headers use ntpath.basename of it; inline
parts also get a Content-ID of the basename in angle brackets. -/
def mkPartMailer (isfile : Str → Bool) (guess : Str → Option Str × Option Str)
    (spec : Str) : Option Part :=
  let dp := parseSpec spec
  let disposicion := dp.1
  let filename := dp.2
  if isfile filename then
    let base := ntBasename filename
    some { disposition := disposicion, filenameParam := base,
           contentId := if disposicion = inlineStr then some (('<' :: base) ++ ['>']) else none,
           ctype := resolveCtype guess filename }
  else none

/-- mailer_sendgrid.py lines 276-312 (SMTP branch): no inline marker
handling, disposition always attachment, Content-ID always added, and the
filename parameter and Content-ID use the raw specifier (no basename). -/
def mkPartSendgridSmtp (isfile : Str → Bool) (guess : Str → Option Str × Option Str)
    (spec : Str) : Option Part :=
  if isfile spec then
    some { disposition := attachmentStr, filenameParam := spec,
           contentId := some (('<' :: spec) ++ ['>']),
           ctype := resolveCtype guess spec }
  else none

/-- The attachment loop over i[1].split(sub): a specifier that yields no
part (missing file) is skipped with continue. -/
def buildParts (mkPart : Str → Option Part) (specs : List Str) : List Part :=
  specs.filterMap mkPart

/-- The message as composed: the headers set on the outer MIMEMultipart,
the envelope-recipient list rcpt handed to server.sendmail, the HTML body
and the attachment parts. -/
structure ComposedMsg where
  headers : List (Str × Str)
  rcpt : List Str
  body : Str
  parts : List Part
deriving DecidableEq

deriving instance DecidableEq for Except

/-- The text of the Python IndexError on a list. -/
def indexErr : Str := lit "list index out of range"

/-- mailer.py lines 162-237, the body of the try block: compose the outer
message (Subject, To, optional Cc and Bcc headers plus the rcpt envelope
list, From, body, attachments) and run the network steps, whose outcome
is the oracle net (none = delivered, some e = an exception raising e at
connect, starttls, login or sendmail).  Any failure inside, including an
IndexError on a short row at i[2] or i[3], is an Except.error. -/
def tryBody (mkPart : Str → Option Part) (sub from_email : Str)
    (net : Option Str) (elem_asunto elem_cuerpo : Str) (i : List Str) :
    Except Str ComposedMsg :=
  match i.get? 0 with
  | none => Except.error indexErr
  | some i0 =>
    match i.get? 2 with
    | none => Except.error indexErr
    | some i2 =>
      match i.get? 3 with
      | none => Except.error indexErr
      | some i3 =>
        let headers :=
          [(lit "Subject", elem_asunto), (lit "To", i0)]
            ++ (if i2 ≠ [] then [(lit "Cc", i2)] else [])
            ++ (if i3 ≠ [] then [(lit "Bcc", i3)] else [])
            ++ [(lit "From", from_email)]
        let rcpt :=
          pySplit sub i0
            ++ (if i2 ≠ [] then pySplit sub i2 else [])
            ++ (if i3 ≠ [] then pySplit sub i3 else [])
        match i.get? 1 with
        | none => Except.error indexErr
        | some i1 =>
          let parts := buildParts mkPart (pySplit sub i1)
          match net with
          | some e => Except.error e
          | none =>
            Except.ok { headers := headers, rcpt := rcpt,
                        body := elem_cuerpo, parts := parts }

/-- Console and timing events of the per-recipient loop. -/
inductive Ev where
  | progress (idx total : Nat) (dest : Str)
  | okMark
  | errMark (msg : Str)
  | sleep (segundos : Nat)
deriving DecidableEq

/-- One iteration of the per-recipient loop (mailer.py lines 152-248).
The substitution and the progress print reading i[0] happen before the
try block, so a failure there propagates as Except.error, aborting the
run without the finally sleep; inside the try an exception prints the
error mark with its message, is counted, and the finally sleep runs in
both outcomes. -/
def runIter (mkPart : Str → Option Part) (phs : List (Str × Nat))
    (sub from_email : Str) (delay : Nat) (asunto cuerpo : Str)
    (total idx : Nat) (net : Option Str) (i : List Str) (ok err : Nat) :
    Except Str (Nat × Nat × List Ev) :=
  match mergeRecord phs i (asunto, cuerpo) with
  | none => Except.error indexErr
  | some ab =>
    match i.get? 0 with
    | none => Except.error indexErr
    | some i0 =>
      let pr := Ev.progress idx total i0
      match tryBody mkPart sub from_email net ab.1 ab.2 i with
      | Except.ok _ => Except.ok (ok + 1, err, [pr, Ev.okMark, Ev.sleep delay])
      | Except.error e => Except.ok (ok, err + 1, [pr, Ev.errMark e, Ev.sleep delay])

/-- The per-recipient loop over the list rows, each row paired with its
network-outcome oracle; threads elem_actual and the two counters, and
concatenates the event traces.  An exception escaping an iteration
(before its try block) aborts the whole loop. -/
def runLoop (mkPart : Str → Option Part) (phs : List (Str × Nat))
    (sub from_email : Str) (delay : Nat) (asunto cuerpo : Str) (total : Nat) :
    List (Option Str × List Str) → Nat → Nat → Nat →
    Except Str (Nat × Nat × List Ev)
  | [], _, ok, err => Except.ok (ok, err, [])
  | (net, i) :: rows, idx, ok, err =>
    match runIter mkPart phs sub from_email delay asunto cuerpo total (idx + 1) net i ok err with
    | Except.error e => Except.error e
    | Except.ok (ok2, err2, evs) =>
      match runLoop mkPart phs sub from_email delay asunto cuerpo total rows (idx + 1) ok2 err2 with
      | Except.error e => Except.error e
      | Except.ok (okF, errF, evsF) => Except.ok (okF, errF, evs ++ evsF)

/-- mailer.py process exit status: missing required arguments, a missing
list or text file, or an unreadable configuration exit 1 before any send;
an exception escaping the loop makes Python exit 1; otherwise the run
completes and exits 2 when at least one send failed, else 0 (lines
255-257). -/
def mailerMain (argsOk listaFound textoFound configOk : Bool)
    (mkPart : Str → Option Part) (phs : List (Str × Nat))
    (sub from_email : Str) (delay : Nat) (asunto cuerpo : Str)
    (rows : List (Option Str × List Str)) : Nat :=
  if ¬ argsOk then 1
  else if ¬ listaFound then 1
  else if ¬ textoFound then 1
  else if ¬ configOk then 1
  else
    match runLoop mkPart phs sub from_email delay asunto cuerpo rows.length rows 0 0 0 with
    | Except.error _ => 1
    | Except.ok (_, err, _) => if err > 0 then 2 else 0

/-- mailer_sendgrid.py, SMTP engine branch: identical startup and loop,
but after the loop the program only prints the summary and falls off the
end (lines 327-335), so a completed run exits 0 no matter how many sends
failed. -/
def sendgridSmtpMain (argsOk listaFound textoFound configOk : Bool)
    (mkPart : Str → Option Part) (phs : List (Str × Nat))
    (sub from_email : Str) (delay : Nat) (asunto cuerpo : Str)
    (rows : List (Option Str × List Str)) : Nat :=
  if ¬ argsOk then 1
  else if ¬ listaFound then 1
  else if ¬ textoFound then 1
  else if ¬ configOk then 1
  else
    match runLoop mkPart phs sub from_email delay asunto cuerpo rows.length rows 0 0 0 with
    | Except.error _ => 1
    | Except.ok _ => 0

/-- The SENDGRID block size (mailer_sendgrid.py line 155). -/
def bloque_envios : Nat := 200

/-- Events of the SENDGRID block loop. -/
inductive BlockEv where
  | attempt (lo hi : Nat)
  | okResp
  | errResp (msg : Str)
  | sleepEv (segundos : Nat)
deriving DecidableEq

/-- Modelled from the spec: the SENDGRID engine block loop of
mailer_sendgrid.py lines 156-238 is syntactically malformed in the source
(an if statement with an empty body at line 216 and a malformed for at
line 224 in the attachment-deduplication section), so this loop is
modelled from the spec and the parseable fragments: while elem_actual is
below the total, one block of rows elem_actual+1 to
min(elem_actual+200, total) is built and sent inside try/except (a
failure is reported and the loop advances), elem_actual advances by 200,
and no sleep happens anywhere.  The fuel makes the while loop structural;
total is enough fuel since each iteration advances by 200 at least 1. -/
def runSendgridBlocksAux (total : Nat) (blockFail : Nat → Option Str) :
    Nat → Nat → List BlockEv
  | 0, _ => []
  | fuel+1, elem_actual =>
    if elem_actual < total then
      let hi := min (elem_actual + bloque_envios) total
      (BlockEv.attempt (elem_actual + 1) hi ::
        (match blockFail elem_actual with
         | none => [BlockEv.okResp]
         | some e => [BlockEv.errResp e]))
        ++ runSendgridBlocksAux total blockFail fuel (elem_actual + bloque_envios)
    else []

/-- Modelled from the spec: the whole SENDGRID block loop from row 0. -/
def runSendgridBlocks (total : Nat) (blockFail : Nat → Option Str) : List BlockEv :=
  runSendgridBlocksAux total blockFail total 0

/-! ### Lemmas about the fuelled string primitives -/

theorem pyReplaceAux_irrel (pat rep : Str) :
    ∀ f₁ f₂ (s : Str), s.length ≤ f₁ → s.length ≤ f₂ →
      pyReplaceAux pat rep f₁ s = pyReplaceAux pat rep f₂ s := by
  intro f₁
  induction f₁ with
  | zero =>
    intro f₂ s h1 _
    have hs : s = [] := by
      cases s with
      | nil => rfl
      | cons c r => simp at h1
    subst hs
    cases f₂ <;> rfl
  | succ f ih =>
    intro f₂ s h1 h2
    cases s with
    | nil => cases f₂ <;> rfl
    | cons c r =>
      cases f₂ with
      | zero => simp at h2
      | succ g =>
        simp only [pyReplaceAux]
        have hr1 : r.length ≤ f := by simp at h1; omega
        have hr2 : r.length ≤ g := by simp at h2; omega
        by_cases hc : pat ≠ [] ∧ pat.isPrefixOf (c :: r)
        · rw [if_pos hc, if_pos hc]
          have hpl : 1 ≤ pat.length := by
            cases hp : pat with
            | nil => exact absurd hp hc.1
            | cons _ _ => simp
          have hd1 : ((c :: r).drop pat.length).length ≤ f := by
            simp [List.length_drop]; omega
          have hd2 : ((c :: r).drop pat.length).length ≤ g := by
            simp [List.length_drop]; omega
          rw [ih g ((c :: r).drop pat.length) hd1 hd2]
        · rw [if_neg hc, if_neg hc]
          by_cases hp : pat = []
          · rw [if_pos hp, if_pos hp, ih g r hr1 hr2]
          · rw [if_neg hp, if_neg hp, ih g r hr1 hr2]

theorem pyReplace_nil (pat rep : Str) :
    pyReplace pat rep [] = if pat = [] then rep else [] := rfl

theorem pyReplace_cons_match {pat : Str} (rep : Str) {c : Char} {rest : Str}
    (hpat : pat ≠ []) (hpre : pat.isPrefixOf (c :: rest) = true) :
    pyReplace pat rep (c :: rest) =
      rep ++ pyReplace pat rep ((c :: rest).drop pat.length) := by
  show pyReplaceAux pat rep (rest.length + 1) (c :: rest) = _
  simp only [pyReplaceAux]
  rw [if_pos ⟨hpat, hpre⟩]
  have hpl : 1 ≤ pat.length := by
    cases hp : pat with
    | nil => exact absurd hp hpat
    | cons _ _ => simp
  have hd1 : ((c :: rest).drop pat.length).length ≤ rest.length := by
    simp [List.length_drop]; omega
  rw [pyReplaceAux_irrel pat rep rest.length ((c :: rest).drop pat.length).length
    ((c :: rest).drop pat.length) hd1 (Nat.le_refl _)]
  rfl

theorem pyReplace_cons_nomatch {pat : Str} (rep : Str) {c : Char} {rest : Str}
    (hpat : pat ≠ []) (hpre : ¬ pat.isPrefixOf (c :: rest) = true) :
    pyReplace pat rep (c :: rest) = c :: pyReplace pat rep rest := by
  show pyReplaceAux pat rep (rest.length + 1) (c :: rest) = _
  simp only [pyReplaceAux]
  rw [if_neg (by intro hc; exact hpre hc.2), if_neg hpat]
  rfl

/-! ### Infix decomposition over appends -/

theorem take_ne_nil_of_pos {p : Str} {n : Nat} (hn : 0 < n) (hp : p ≠ []) :
    p.take n ≠ [] := by
  cases p with
  | nil => exact absurd rfl hp
  | cons c r =>
    cases n with
    | zero => omega
    | succ m => simp

theorem drop_ne_nil_of_lt {p : Str} {n : Nat} (hn : n < p.length) : p.drop n ≠ [] := by
  intro hc
  have := congrArg List.length hc
  simp [List.length_drop] at this
  omega

theorem infix_append_split {p L R : Str} (h : p <:+: (L ++ R)) :
    p <:+: L ∨ p <:+: R ∨
      ∃ p₁ p₂, p = p₁ ++ p₂ ∧ p₁ ≠ [] ∧ p₂ ≠ [] ∧ p₁ <:+ L ∧ p₂ <+: R := by
  obtain ⟨u, v, huv⟩ := h
  have hlen := congrArg List.length huv
  simp only [List.length_append] at hlen
  by_cases hL : u.length + p.length ≤ L.length
  · left
    have h1 : u ++ p <+: L ++ R := ⟨v, huv⟩
    have h2 : u ++ p <+: L :=
      (List.isPrefix_append_of_length (by simp; omega)).mp h1
    obtain ⟨w, hw⟩ := h2
    exact ⟨u, w, hw⟩
  · by_cases hR : L.length ≤ u.length
    · right; left
      have hsuf : p ++ v <:+ L ++ R := ⟨u, by rw [← List.append_assoc]; exact huv⟩
      have h1 : (p ++ v).reverse <+: (L ++ R).reverse := List.reverse_prefix.mpr hsuf
      rw [List.reverse_append, List.reverse_append] at h1
      have h2 : (p ++ v).reverse <+: R.reverse := by
        rw [List.reverse_append]
        refine (List.isPrefix_append_of_length ?_).mp h1
        simp
        omega
      have h3 : p ++ v <:+ R := List.reverse_prefix.mp h2
      obtain ⟨w, hw⟩ := h3
      exact ⟨w, v, by rw [← List.append_assoc] at hw; exact hw⟩
    · right; right
      have hu : u.length < L.length := by omega
      have hk : L.length - u.length < p.length := by omega
      refine ⟨p.take (L.length - u.length), p.drop (L.length - u.length),
        (p.take_append_drop _).symm,
        take_ne_nil_of_pos (by omega) (by intro hc; rw [hc] at hk; simp at hk),
        drop_ne_nil_of_lt hk, ?_, ?_⟩
      · -- take L.length of both sides of huv
        have hRr : (L ++ R).take L.length = L := by
          rw [List.take_append_eq_append_take, Nat.sub_self]
          simp
        have ht := congrArg (List.take L.length) huv
        rw [hRr, List.take_append_eq_append_take, List.take_append_eq_append_take,
          List.take_of_length_le (by omega : u.length ≤ L.length)] at ht
        have hz : L.length - (u ++ p).length = 0 := by simp; omega
        rw [hz] at ht
        simp only [List.take_zero, List.append_nil] at ht
        exact ⟨u, ht⟩
      · -- drop L.length of both sides of huv
        have hRr : (L ++ R).drop L.length = R := by
          rw [List.drop_append_eq_append_drop, Nat.sub_self]
          simp
        have hd2 := congrArg (List.drop L.length) huv
        rw [hRr, List.append_assoc, List.drop_append_eq_append_drop,
          List.drop_of_length_le (by omega : u.length ≤ L.length),
          List.drop_append_eq_append_drop] at hd2
        have hz : L.length - u.length - p.length = 0 := by omega
        rw [hz] at hd2
        simp only [List.drop_zero, List.nil_append] at hd2
        exact ⟨v, hd2⟩

theorem suffix_append_shares_char {w t rep : Str} (hw : w ≠ []) (hrep : rep ≠ [])
    (h : w <:+ t ++ rep) : ∃ x, x ∈ w ∧ x ∈ rep := by
  have h1 : w.reverse <+: (t ++ rep).reverse := List.reverse_prefix.mpr h
  rw [List.reverse_append] at h1
  cases hw2 : w.reverse with
  | nil => exact absurd (List.reverse_eq_nil_iff.mp hw2) hw
  | cons x wr =>
    cases hr2 : rep.reverse with
    | nil => exact absurd (List.reverse_eq_nil_iff.mp hr2) hrep
    | cons y rr =>
      rw [hw2, hr2] at h1
      have hxy := (List.cons_prefix_cons.mp (by simpa using h1)).1
      refine ⟨x, ?_, ?_⟩
      · have : x ∈ w.reverse := by rw [hw2]; exact List.mem_cons_self x wr
        exact List.mem_reverse.mp this
      · have : x ∈ rep.reverse := by rw [hr2, hxy]; exact List.mem_cons_self y rr
        exact List.mem_reverse.mp this

theorem suffix_snoc_decomp {w t : Str} {c : Char} (hw : w ≠ []) (h : w <:+ t ++ [c]) :
    ∃ w₀, w = w₀ ++ [c] ∧ w₀ <:+ t := by
  have h1 : w.reverse <+: (t ++ [c]).reverse := List.reverse_prefix.mpr h
  rw [List.reverse_append] at h1
  cases hw2 : w.reverse with
  | nil => exact absurd (List.reverse_eq_nil_iff.mp hw2) hw
  | cons x wr =>
    rw [hw2] at h1
    have h2 := List.cons_prefix_cons.mp (by simpa using h1)
    refine ⟨wr.reverse, ?_, ?_⟩
    · have hwr : w = (x :: wr).reverse := by rw [← hw2, List.reverse_reverse]
      rw [hwr, h2.1]
      simp
    · have : wr.reverse.reverse <+: t.reverse := by simpa using h2.2
      exact List.reverse_prefix.mp this

theorem infix_append_middle {p t rep X : Str} (hrep : rep ≠ [])
    (hd : ∀ c ∈ rep, c ∉ p) (h : p <:+: t ++ (rep ++ X)) :
    p <:+: t ∨ p <:+: X := by
  rcases infix_append_split h with h1 | h1 | ⟨p₁, p₂, hp, hp₁, hp₂, hs, hpre⟩
  · exact Or.inl h1
  · rcases infix_append_split h1 with h2 | h2 | ⟨q₁, q₂, hq, hq₁, hq₂, hqs, hqp⟩
    · by_cases hpn : p = []
      · exact Or.inl (by rw [hpn]; exact List.nil_infix)
      · obtain ⟨x, hx⟩ := List.exists_mem_of_ne_nil p hpn
        exact absurd hx (hd x (h2.subset hx))
    · exact Or.inr h2
    · obtain ⟨x, hx⟩ := List.exists_mem_of_ne_nil q₁ hq₁
      have hxp : x ∈ p := by rw [hq]; exact List.mem_append_left _ hx
      have hxr : x ∈ rep := hqs.subset hx
      exact absurd hxp (hd x hxr)
  · cases hp2c : p₂ with
    | nil => exact absurd hp2c hp₂
    | cons a q =>
      cases hrc : rep with
      | nil => exact absurd hrc hrep
      | cons b r =>
        rw [hp2c, hrc] at hpre
        have hab := (List.cons_prefix_cons.mp (by simpa using hpre)).1
        have hxp : a ∈ p := by
          rw [hp, hp2c]; exact List.mem_append_right _ (List.mem_cons_self a q)
        have hxr : a ∈ rep := by rw [hrc, hab]; exact List.mem_cons_self b r
        exact absurd hxp (hd a hxr)

theorem not_infix_append_disjoint {p t rep : Str} (hrep : rep ≠ [])
    (hd : ∀ c ∈ rep, c ∉ p) (ht : ¬ p <:+: t) : ¬ p <:+: (t ++ rep) := by
  intro h
  have h2 : p <:+: t ++ (rep ++ []) := by simpa using h
  rcases infix_append_middle hrep hd h2 with h3 | h3
  · exact ht h3
  · have hpn : p = [] := by
      have hle := h3.sublist.length_le
      simpa using hle
    rw [hpn] at ht
    exact ht List.nil_infix

/-! ### What str.replace does to occurrences -/

theorem pyReplaceAux_keeps_absent {pat rep p : Str} (hpat : pat ≠ []) (hrep : rep ≠ [])
    (hd : ∀ c ∈ rep, c ∉ p) :
    ∀ fuel (s t : Str), s.length ≤ fuel → ¬ p <:+: (t ++ s) →
      ¬ p <:+: (t ++ pyReplaceAux pat rep fuel s) := by
  intro fuel
  induction fuel with
  | zero =>
    intro s t hlen habs
    have hs : s = [] := by
      cases s with
      | nil => rfl
      | cons c r => simp at hlen
    subst hs
    simpa [pyReplaceAux, hpat] using habs
  | succ f ih =>
    intro s t hlen habs
    cases s with
    | nil => simpa [pyReplaceAux, hpat] using habs
    | cons c r =>
      simp only [pyReplaceAux]
      by_cases hc : pat ≠ [] ∧ pat.isPrefixOf (c :: r)
      · rw [if_pos hc]
        have hpl : 1 ≤ pat.length := by
          cases hp : pat with
          | nil => exact absurd hp hpat
          | cons _ _ => simp
        have hlen' : ((c :: r).drop pat.length).length ≤ f := by
          simp only [List.length_drop, List.length_cons] at *
          omega
        have habs' : ¬ p <:+: ((t ++ rep) ++ (c :: r).drop pat.length) := by
          intro hcontra
          rw [List.append_assoc] at hcontra
          rcases infix_append_middle hrep hd hcontra with h1 | h1
          · exact habs (h1.trans (List.prefix_append t (c :: r)).isInfix)
          · exact habs
              ((h1.trans (List.drop_suffix pat.length (c :: r)).isInfix).trans
                (List.suffix_append t (c :: r)).isInfix)
        have hres := ih ((c :: r).drop pat.length) (t ++ rep) hlen' habs'
        intro hcontra
        rw [← List.append_assoc] at hcontra
        exact hres hcontra
      · rw [if_neg hc, if_neg hpat]
        have hlen' : r.length ≤ f := by simp at hlen; omega
        have habs' : ¬ p <:+: ((t ++ [c]) ++ r) := by
          intro hcontra
          rw [List.append_assoc] at hcontra
          exact habs hcontra
        have hres := ih r (t ++ [c]) hlen' habs'
        intro hcontra
        apply hres
        rw [List.append_assoc]
        exact hcontra

theorem pyReplace_keeps_absent {pat rep p : Str} (hpat : pat ≠ []) (hrep : rep ≠ [])
    (hd : ∀ c ∈ rep, c ∉ p) {s : Str} (habs : ¬ p <:+: s) :
    ¬ p <:+: pyReplace pat rep s := by
  have hres := pyReplaceAux_keeps_absent hpat hrep hd s.length s [] (le_refl _)
    (by simpa using habs)
  simpa using hres

theorem pyReplaceAux_no_self {pat rep : Str} (hpat : pat ≠ []) (hrep : rep ≠ [])
    (hd : ∀ c ∈ rep, c ∉ pat) :
    ∀ fuel (s t : Str), s.length ≤ fuel →
      ¬ pat <:+: t →
      (∀ w p2, pat = w ++ p2 → w ≠ [] → p2 ≠ [] → w <:+ t → ¬ p2 <+: s) →
      ¬ pat <:+: (t ++ pyReplaceAux pat rep fuel s) := by
  intro fuel
  induction fuel with
  | zero =>
    intro s t hlen ht _
    have hs : s = [] := by
      cases s with
      | nil => rfl
      | cons c r => simp at hlen
    subst hs
    simpa [pyReplaceAux, hpat] using ht
  | succ f ih =>
    intro s t hlen ht hbound
    cases s with
    | nil => simpa [pyReplaceAux, hpat] using ht
    | cons c r =>
      simp only [pyReplaceAux]
      by_cases hc : pat ≠ [] ∧ pat.isPrefixOf (c :: r)
      · rw [if_pos hc]
        have hpl : 1 ≤ pat.length := by
          cases hp : pat with
          | nil => exact absurd hp hpat
          | cons _ _ => simp
        have hlen' : ((c :: r).drop pat.length).length ≤ f := by
          simp only [List.length_drop, List.length_cons] at *
          omega
        have ht' : ¬ pat <:+: (t ++ rep) := not_infix_append_disjoint hrep hd ht
        have hbound' : ∀ w p2, pat = w ++ p2 → w ≠ [] → p2 ≠ [] → w <:+ t ++ rep →
            ¬ p2 <+: (c :: r).drop pat.length := by
          intro w p2 hpe hw _ hwsuf _
          obtain ⟨x, hxw, hxr⟩ := suffix_append_shares_char hw hrep hwsuf
          have hxpat : x ∈ pat := by
            rw [hpe]
            exact List.mem_append_left _ hxw
          exact hd x hxr hxpat
        have hres := ih ((c :: r).drop pat.length) (t ++ rep) hlen' ht' hbound'
        intro hcontra
        rw [← List.append_assoc] at hcontra
        exact hres hcontra
      · rw [if_neg hc, if_neg hpat]
        have hnp : ¬ pat.isPrefixOf (c :: r) = true := by
          intro hx
          exact hc ⟨hpat, hx⟩
        have hnpre : ¬ pat <+: (c :: r) := by
          intro hx
          exact hnp (List.isPrefixOf_iff_prefix.mpr hx)
        have hlen' : r.length ≤ f := by simp at hlen; omega
        have ht' : ¬ pat <:+: (t ++ [c]) := by
          intro hcontra
          rcases infix_append_split hcontra with ha | ha | ⟨p₁, p₂, hpe, hp₁, hp₂, hs₁, hpre2⟩
          · exact ht ha
          · -- pat an infix of the singleton [c], and pat nonempty, so pat = [c]
            have hpc : pat = [c] := by
              obtain ⟨u2, v2, h2⟩ := ha
              cases u2 with
              | cons _ _ =>
                have := congrArg List.length h2
                simp at this
                cases hp : pat with
                | nil => exact absurd hp hpat
                | cons _ _ => rw [hp] at this; simp at this
              | nil =>
                simp at h2
                cases hp : pat with
                | nil => exact absurd hp hpat
                | cons a ps =>
                  rw [hp] at h2
                  cases ps with
                  | nil =>
                    simp at h2
                    rw [h2.1]
                  | cons _ _ => simp at h2
            apply hnpre
            rw [hpc]
            exact ⟨r, rfl⟩
          · -- the occurrence would span the boundary: p₂ is a non-empty prefix of [c]
            have hp2c : p₂ = [c] := by
              obtain ⟨v2, hv⟩ := hpre2
              cases p₂ with
              | nil => exact absurd rfl hp₂
              | cons a q =>
                simp at hv
                rw [hv.1, hv.2.1]
            by_cases hp1n : p₁ = []
            · apply hnpre
              rw [hpe, hp1n, hp2c]
              exact ⟨r, rfl⟩
            · have hq := hbound p₁ [c] (by rw [hpe, hp2c]) hp1n (by simp) hs₁
              exact hq ⟨r, rfl⟩
        have hbound' : ∀ w p2, pat = w ++ p2 → w ≠ [] → p2 ≠ [] → w <:+ t ++ [c] →
            ¬ p2 <+: r := by
          intro w p2 hpe hw hp2 hwsuf hp2pre
          obtain ⟨w₀, hw0, hw0s⟩ := suffix_snoc_decomp hw hwsuf
          by_cases hw0n : w₀ = []
          · apply hnpre
            rw [hpe, hw0, hw0n]
            simp only [List.nil_append, List.cons_append, List.singleton_append]
            exact List.cons_prefix_cons.mpr ⟨rfl, hp2pre⟩
          · have hq := hbound w₀ (c :: p2)
              (by rw [hpe, hw0, List.append_assoc]; rfl)
              hw0n (by simp) hw0s
            exact hq (List.cons_prefix_cons.mpr ⟨rfl, hp2pre⟩)
        have hres := ih r (t ++ [c]) hlen' ht' hbound'
        intro hcontra
        apply hres
        rw [List.append_assoc]
        exact hcontra

theorem pyReplace_no_self {pat rep : Str} (hpat : pat ≠ []) (hrep : rep ≠ [])
    (hd : ∀ c ∈ rep, c ∉ pat) (s : Str) : ¬ pat <:+: pyReplace pat rep s := by
  have hres := pyReplaceAux_no_self hpat hrep hd s.length s [] (le_refl _)
    (by simp [hpat])
    (by
      intro w p2 _ hw _ hsuf
      exact absurd (List.suffix_nil.mp hsuf) hw)
  simpa using hres

theorem rep_infix_pyReplaceAux {pat rep : Str} (hpat : pat ≠ []) :
    ∀ fuel (s : Str), s.length ≤ fuel → pat <:+: s →
      rep <:+: pyReplaceAux pat rep fuel s := by
  intro fuel
  induction fuel with
  | zero =>
    intro s hlen hinf
    have hs : s = [] := by
      cases s with
      | nil => rfl
      | cons c r => simp at hlen
    subst hs
    exact absurd (by simpa using hinf) hpat
  | succ f ih =>
    intro s hlen hinf
    cases s with
    | nil => exact absurd (by simpa using hinf) hpat
    | cons c r =>
      simp only [pyReplaceAux]
      by_cases hc : pat ≠ [] ∧ pat.isPrefixOf (c :: r)
      · rw [if_pos hc]
        exact (List.prefix_append rep _).isInfix
      · rw [if_neg hc, if_neg hpat]
        rcases List.infix_cons_iff.mp hinf with h1 | h1
        · exact absurd (List.isPrefixOf_iff_prefix.mpr h1) (fun hx => hc ⟨hpat, hx⟩)
        · have hlen' : r.length ≤ f := by simp at hlen; omega
          exact List.infix_cons_iff.mpr (Or.inr (ih r hlen' h1))

theorem rep_infix_pyReplace {pat rep : Str} (hpat : pat ≠ []) {s : Str}
    (hinf : pat <:+: s) : rep <:+: pyReplace pat rep s :=
  rep_infix_pyReplaceAux hpat s.length s (le_refl _) hinf

/-! ### The merge engine -/

theorem mergeRecord_eq_applyPair :
    ∀ (phs : List (Str × Nat)) (i : List Str) (a b : Str),
      mergeRecord phs i (a, b) =
        match applyPlaceholders phs i a, applyPlaceholders phs i b with
        | some x, some y => some (x, y)
        | _, _ => none := by
  intro phs
  induction phs with
  | nil => intro i a b; rfl
  | cons kv rest ih =>
    intro i a b
    obtain ⟨k, v⟩ := kv
    simp only [mergeRecord, applyPlaceholders]
    cases i.get? v with
    | none => rfl
    | some val => exact ih i _ _

theorem mergeRecord_none_of_short :
    ∀ (phs : List (Str × Nat)) (i : List Str) (ab : Str × Str),
      (∃ kv ∈ phs, i.get? kv.2 = none) → mergeRecord phs i ab = none := by
  intro phs
  induction phs with
  | nil => intro i ab h; simp at h
  | cons kv rest ih =>
    intro i ab h
    obtain ⟨k, v⟩ := kv
    obtain ⟨a, b⟩ := ab
    simp only [mergeRecord]
    cases hg : i.get? v with
    | none => rfl
    | some val =>
      apply ih
      rcases h with ⟨kv2, hmem, hnone⟩
      rcases List.mem_cons.mp hmem with he | hm
      · rw [he] at hnone
        simp only at hnone
        rw [hnone] at hg
        exact absurd hg (by simp)
      · exact ⟨kv2, hm, hnone⟩

theorem dictInsert_mem {d : List (Str × Nat)} {k : Str} {v : Nat} {kv : Str × Nat}
    (h : kv ∈ dictInsert d k v) : kv ∈ d ∨ kv.1 = k := by
  unfold dictInsert at h
  split at h
  · rcases List.mem_map.mp h with ⟨p, hp, he⟩
    by_cases hpk : p.1 == k
    · rw [if_pos hpk] at he
      right
      rw [← he]
    · rw [if_neg hpk] at he
      left
      rw [← he]
      exact hp
  · rcases List.mem_append.mp h with hm | hm
    · exact Or.inl hm
    · right
      rw [List.mem_singleton.mp hm]

theorem buildPlaceholders_foldl_keys (l : List (Nat × Str)) :
    ∀ d : List (Str × Nat),
      (∀ kv ∈ d, pyStartswith (lit "||") kv.1 = true ∧ pyEndswith (lit "||") kv.1 = true) →
      ∀ kv ∈ l.foldl
        (fun d iv =>
          if pyStartswith (lit "||") iv.2 ∧ pyEndswith (lit "||") iv.2 then
            dictInsert d iv.2 iv.1
          else d) d,
        pyStartswith (lit "||") kv.1 = true ∧ pyEndswith (lit "||") kv.1 = true := by
  intro d hd
  induction l generalizing d with
  | nil => exact hd
  | cons iv rest ih =>
    intro kv hkv
    simp only [List.foldl_cons] at hkv
    by_cases hcond : pyStartswith (lit "||") iv.2 = true ∧ pyEndswith (lit "||") iv.2 = true
    · rw [if_pos hcond] at hkv
      refine ih (dictInsert d iv.2 iv.1) ?_ kv hkv
      intro kv2 hkv2
      rcases dictInsert_mem hkv2 with hm | he
      · exact hd kv2 hm
      · rw [he]
        exact hcond
    · rw [if_neg hcond] at hkv
      exact ih d hd kv hkv

theorem buildPlaceholders_keys_wrapped {columnas : List Str} :
    ∀ kv ∈ buildPlaceholders columnas,
      pyStartswith (lit "||") kv.1 = true ∧ pyEndswith (lit "||") kv.1 = true := by
  intro kv hkv
  exact buildPlaceholders_foldl_keys columnas.enum [] (by simp) kv hkv

theorem wrapped_ne_nil {k : Str} (h : pyStartswith (lit "||") k = true) : k ≠ [] := by
  intro hc
  rw [hc] at h
  exact absurd h (by decide)

theorem applyPlaceholders_clean (i : List Str) (toks : List Str) :
    ∀ (phs : List (Str × Nat)) (s : Str) (done : List Str),
      (∀ kv ∈ phs, kv.1 ≠ [] ∧ kv.1 ∈ toks ∧
        ∃ val, i.get? kv.2 = some val ∧ val ≠ [] ∧ ∀ c ∈ val, ∀ k2 ∈ toks, c ∉ k2) →
      (∀ k ∈ done, k ∈ toks ∧ ¬ k <:+: s) →
      ∃ t, applyPlaceholders phs i s = some t ∧
        (∀ k ∈ done, ¬ k <:+: t) ∧ (∀ kv ∈ phs, ¬ kv.1 <:+: t) := by
  intro phs
  induction phs with
  | nil =>
    intro s done _ hdone
    exact ⟨s, rfl, fun k hk => (hdone k hk).2, by simp⟩
  | cons kv rest ih =>
    intro s done hphs hdone
    obtain ⟨k, v⟩ := kv
    obtain ⟨hk, hkt, val, hval, hvn, hvd⟩ := hphs (k, v) (List.mem_cons_self _ _)
    simp only [applyPlaceholders, hval]
    have hdone2 : ∀ k2 ∈ done ++ [k], k2 ∈ toks ∧ ¬ k2 <:+: pyReplace k val s := by
      intro k2 hk2
      rcases List.mem_append.mp hk2 with hm | hm
      · exact ⟨(hdone k2 hm).1,
          pyReplace_keeps_absent hk hvn (fun c hc => hvd c hc k2 (hdone k2 hm).1)
            (hdone k2 hm).2⟩
      · rw [List.mem_singleton.mp hm]
        exact ⟨hkt, pyReplace_no_self hk hvn (fun c hc => hvd c hc k hkt) s⟩
    have hrest : ∀ kv ∈ rest, kv.1 ≠ [] ∧ kv.1 ∈ toks ∧
        ∃ val, i.get? kv.2 = some val ∧ val ≠ [] ∧ ∀ c ∈ val, ∀ k2 ∈ toks, c ∉ k2 :=
      fun kv hm => hphs kv (List.mem_cons_of_mem _ hm)
    obtain ⟨t, ht, htdone, htrest⟩ := ih (pyReplace k val s) (done ++ [k]) hrest hdone2
    refine ⟨t, ht, ?_, ?_⟩
    · intro k2 hm
      exact htdone k2 (List.mem_append_left _ hm)
    · intro kv hm
      rcases List.mem_cons.mp hm with he | hm2
      · rw [he]
        exact htdone k (List.mem_append_right _ (List.mem_singleton.mpr rfl))
      · exact htrest kv hm2

/-! ### ntpath.basename and the block loop -/

theorem afterLastSep_foldl_no_sep (p : Str) :
    ∀ acc, (∀ c ∈ acc, isSep c = false) →
      ∀ c ∈ p.foldl (fun acc c => if isSep c then [] else acc ++ [c]) acc,
        isSep c = false := by
  induction p with
  | nil => intro acc hacc c hc; exact hacc c hc
  | cons d rest ih =>
    intro acc hacc c hc
    simp only [List.foldl_cons] at hc
    by_cases hd : isSep d = true
    · exact ih [] (by simp) c (by rwa [if_pos hd] at hc)
    · refine ih (acc ++ [d]) ?_ c (by rwa [if_neg hd] at hc)
      intro c2 hc2
      rcases List.mem_append.mp hc2 with hm | hm
      · exact hacc c2 hm
      · rw [List.mem_singleton.mp hm]
        exact Bool.not_eq_true _ ▸ (by simpa using hd)

theorem ntBasename_no_sep (p : Str) : ∀ c ∈ ntBasename p, isSep c = false := by
  intro c hc
  exact afterLastSep_foldl_no_sep (splitdriveRest p) [] (by simp) c hc

/-- True exactly on the block-attempt events. -/
def isAttempt : BlockEv → Bool
  | BlockEv.attempt _ _ => true
  | _ => false

theorem runSendgridBlocksAux_attempts_irrel (total : Nat) (f g : Nat → Option Str) :
    ∀ fuel ea,
      (runSendgridBlocksAux total f fuel ea).filter isAttempt =
        (runSendgridBlocksAux total g fuel ea).filter isAttempt := by
  intro fuel
  induction fuel with
  | zero => intro ea; rfl
  | succ n ih =>
    intro ea
    simp only [runSendgridBlocksAux]
    by_cases h : ea < total
    · rw [if_pos h, if_pos h]
      cases f ea <;> cases g ea <;>
        simp [List.filter_append, List.filter_cons, isAttempt, ih (ea + bloque_envios)]
    · rw [if_neg h, if_neg h]

theorem runSendgridBlocksAux_attempt_bounds (total : Nat) (f : Nat → Option Str) :
    ∀ fuel ea lo hi, BlockEv.attempt lo hi ∈ runSendgridBlocksAux total f fuel ea →
      lo ≤ hi ∧ hi ≤ lo + 199 ∧ hi ≤ total := by
  intro fuel
  induction fuel with
  | zero => intro ea lo hi h; simp [runSendgridBlocksAux] at h
  | succ n ih =>
    intro ea lo hi h
    simp only [runSendgridBlocksAux] at h
    by_cases hlt : ea < total
    · rw [if_pos hlt] at h
      rcases List.mem_append.mp h with hm | hm
      · rcases List.mem_cons.mp hm with he | hm2
        · have h1 : lo = ea + 1 ∧ hi = min (ea + bloque_envios) total := by
            cases he
            exact ⟨rfl, rfl⟩
          obtain ⟨h2, h3⟩ := h1
          subst h2
          subst h3
          refine ⟨?_, ?_, ?_⟩
          · simp only [bloque_envios]
            omega
          · simp only [bloque_envios]
            omega
          · exact Nat.min_le_right _ _
        · exfalso
          cases hf : f ea <;> rw [hf] at hm2 <;> simp at hm2
      · exact ih (ea + bloque_envios) lo hi hm
    · rw [if_neg hlt] at h
      simp at h

theorem runSendgridBlocksAux_covers (total : Nat) (f : Nat → Option Str) :
    ∀ fuel ea j, ea ≤ j → j < total → total ≤ ea + fuel * bloque_envios →
      ∃ lo hi, BlockEv.attempt lo hi ∈ runSendgridBlocksAux total f fuel ea ∧
        lo ≤ j + 1 ∧ j + 1 ≤ hi := by
  intro fuel
  induction fuel with
  | zero =>
    intro ea j h1 h2 h3
    simp at h3
    omega
  | succ n ih =>
    intro ea j h1 h2 h3
    have hlt : ea < total := by omega
    simp only [runSendgridBlocksAux, if_pos hlt]
    by_cases hj : j < ea + bloque_envios
    · refine ⟨ea + 1, min (ea + bloque_envios) total, ?_, by omega, ?_⟩
      · exact List.mem_append_left _ (List.mem_cons_self _ _)
      · simp [bloque_envios] at *
        omega
    · have h3' : total ≤ ea + bloque_envios + n * bloque_envios := by
        simp [Nat.succ_mul] at h3
        omega
      obtain ⟨lo, hi, hmem, hl, hr⟩ := ih (ea + bloque_envios) j (by omega) h2 h3'
      exact ⟨lo, hi, List.mem_append_right _ hmem, hl, hr⟩

theorem runSendgridBlocksAux_no_sleep (total : Nat) (f : Nat → Option Str) :
    ∀ fuel ea n, BlockEv.sleepEv n ∉ runSendgridBlocksAux total f fuel ea := by
  intro fuel
  induction fuel with
  | zero => intro ea n h; simp [runSendgridBlocksAux] at h
  | succ m ih =>
    intro ea n h
    simp only [runSendgridBlocksAux] at h
    by_cases hlt : ea < total
    · rw [if_pos hlt] at h
      rcases List.mem_append.mp h with hm | hm
      · rcases List.mem_cons.mp hm with he | hm2
        · exact BlockEv.noConfusion he
        · cases hf : f ea <;> rw [hf] at hm2 <;> simp at hm2
      · exact ih (ea + bloque_envios) n hm
    · rw [if_neg hlt] at h
      simp at h

/-! ### Claim theorems -/

/-- C1 as stated is false on the code: the replacement is sequential, and a
substituted value may itself contain a placeholder token, which then
remains in the merged subject even though the record is longer than every
mapped column index. -/
theorem c1_counterexample :
    buildPlaceholders [lit "to", lit "adjuntos", lit "cc", lit "bcc", lit "||nombre||"] =
      [(lit "||nombre||", 4)] ∧
    (4 : Nat) < ([lit "u", [], [], [], lit "X||nombre||Y"] : List Str).length ∧
    mergeRecord [(lit "||nombre||", 4)] [lit "u", [], [], [], lit "X||nombre||Y"]
      (lit "Hola ||nombre||", lit "texto") =
      some (lit "Hola X||nombre||Y", lit "texto") ∧
    (lit "||nombre||") <:+: (lit "Hola X||nombre||Y") := by
  refine ⟨by decide, by decide, by decide, by decide⟩

/-- C1 (amended): for every template and the placeholder map built from the
header row, merging a record that is defined at every mapped column index
applies literal, sequential, all-occurrences substring replacement; and
provided every substituted value is non-empty and shares no character
with any placeholder token, the merged subject and body contain no
remaining occurrence of any token (without that proviso a value can
re-introduce a token, as the counterexample shows). -/
theorem c1_merge_no_token_remains (columnas i : List Str) (asunto cuerpo : Str)
    (hvals : ∀ kv ∈ buildPlaceholders columnas,
      ∃ val, i.get? kv.2 = some val ∧ val ≠ [] ∧
        ∀ c ∈ val, ∀ kv2 ∈ buildPlaceholders columnas, c ∉ kv2.1) :
    ∃ sa sc, mergeRecord (buildPlaceholders columnas) i (asunto, cuerpo) = some (sa, sc) ∧
      ∀ kv ∈ buildPlaceholders columnas, ¬ kv.1 <:+: sa ∧ ¬ kv.1 <:+: sc := by
  have hphs : ∀ kv ∈ buildPlaceholders columnas, kv.1 ≠ [] ∧
      kv.1 ∈ (buildPlaceholders columnas).map Prod.fst ∧
      ∃ val, i.get? kv.2 = some val ∧ val ≠ [] ∧
        ∀ c ∈ val, ∀ k2 ∈ (buildPlaceholders columnas).map Prod.fst, c ∉ k2 := by
    intro kv hkv
    refine ⟨wrapped_ne_nil (buildPlaceholders_keys_wrapped kv hkv).1,
      List.mem_map.mpr ⟨kv, hkv, rfl⟩, ?_⟩
    obtain ⟨val, h1, h2, h3⟩ := hvals kv hkv
    refine ⟨val, h1, h2, ?_⟩
    intro c hc k2 hk2
    rcases List.mem_map.mp hk2 with ⟨kv2, hkv2, he⟩
    rw [← he]
    exact h3 c hc kv2 hkv2
  obtain ⟨sa, ha, _, hares⟩ :=
    applyPlaceholders_clean i ((buildPlaceholders columnas).map Prod.fst)
      (buildPlaceholders columnas) asunto [] hphs (by simp)
  obtain ⟨sc, hcq, _, hcres⟩ :=
    applyPlaceholders_clean i ((buildPlaceholders columnas).map Prod.fst)
      (buildPlaceholders columnas) cuerpo [] hphs (by simp)
  refine ⟨sa, sc, ?_, fun kv hkv => ⟨hares kv hkv, hcres kv hkv⟩⟩
  rw [mergeRecord_eq_applyPair, ha, hcq]

/-- Witness for the amended C1 at a concrete header, record and template. -/
theorem c1_witness :
    ∃ sa sc,
      mergeRecord
        (buildPlaceholders [lit "to", lit "adjuntos", lit "cc", lit "bcc", lit "||nombre||"])
        [lit "u", [], [], [], lit "XYZ"] (lit "Hola ||nombre||", lit "fin ||nombre||") =
        some (sa, sc) ∧
      ∀ kv ∈ buildPlaceholders [lit "to", lit "adjuntos", lit "cc", lit "bcc", lit "||nombre||"],
        ¬ kv.1 <:+: sa ∧ ¬ kv.1 <:+: sc := by
  apply c1_merge_no_token_remains
  intro kv hkv
  have hb : buildPlaceholders [lit "to", lit "adjuntos", lit "cc", lit "bcc", lit "||nombre||"] =
      [(lit "||nombre||", 4)] := by decide
  rw [hb] at hkv
  rw [List.mem_singleton.mp hkv]
  exact ⟨lit "XYZ", by decide, by decide, by rw [hb]; decide⟩

/-- C2 as stated is false on the code: the substitution loop runs before
the try block, so a record shorter than a mapped column index raises an
uncaught IndexError that aborts the whole run (here with a second,
perfectly fine record following); no per-recipient failure is counted and
the process exits 1, not 2. -/
theorem c2_counterexample :
    runLoop (mkPartMailer (fun _ => false) (fun _ => (none, none)))
      [(lit "||n||", 4)] (lit ";") (lit "F") 0 (lit "S ||n||") (lit "B") 2
      [(none, [lit "a", [], [], []]), (none, [lit "b", [], [], [], lit "v"])] 0 0 0 =
      Except.error indexErr ∧
    mailerMain true true true true (mkPartMailer (fun _ => false) (fun _ => (none, none)))
      [(lit "||n||", 4)] (lit ";") (lit "F") 0 (lit "S ||n||") (lit "B")
      [(none, [lit "a", [], [], []]), (none, [lit "b", [], [], [], lit "v"])] = 1 := by
  refine ⟨by decide, by decide⟩

/-- C2 (amended): a record shorter than some mapped column index makes the
substitution loop, which runs before the per-recipient try block, raise
an uncaught IndexError: the run loop aborts with that exception whatever
records follow, nothing is counted for this or any later record, and the
process exits with code 1 (not the per-recipient-failure path). -/
theorem c2_short_record_aborts_run (mkPart : Str → Option Part)
    (phs : List (Str × Nat)) (sub from_email : Str) (delay : Nat)
    (asunto cuerpo : Str) (total : Nat) (net : Option Str) (i : List Str)
    (rest : List (Option Str × List Str)) (idx ok err : Nat)
    (hshort : ∃ kv ∈ phs, i.get? kv.2 = none) :
    runLoop mkPart phs sub from_email delay asunto cuerpo total
      ((net, i) :: rest) idx ok err = Except.error indexErr ∧
    mailerMain true true true true mkPart phs sub from_email delay asunto cuerpo
      ((net, i) :: rest) = 1 := by
  have hm := mergeRecord_none_of_short phs i (asunto, cuerpo) hshort
  constructor
  · simp only [runLoop, runIter, hm]
  · simp only [mailerMain, Bool.not_true, if_neg]
    simp only [runLoop, runIter, hm]
    rfl

/-- Witness for the amended C2 at a concrete input. -/
theorem c2_witness :
    (∃ kv ∈ [(lit "||n||", 4)],
      ([lit "a", [], [], []] : List Str).get? kv.2 = none) ∧
    (runLoop (mkPartMailer (fun _ => true) (fun _ => (none, none)))
      [(lit "||n||", 4)] (lit ",") (lit "G") 3 (lit "S") (lit "B ||n||") 5
      [(none, [lit "a", [], [], []]), (some (lit "x"), [lit "c", [], [], [], lit "w"])] 2 1 1 =
      Except.error indexErr ∧
    mailerMain true true true true (mkPartMailer (fun _ => true) (fun _ => (none, none)))
      [(lit "||n||", 4)] (lit ",") (lit "G") 3 (lit "S") (lit "B ||n||")
      [(none, [lit "a", [], [], []]), (some (lit "x"), [lit "c", [], [], [], lit "w"])] = 1) :=
  ⟨by decide,
    c2_short_record_aborts_run _ _ _ _ _ _ _ _ _ _ _ _ _ _ (by decide)⟩

/-- C3 as stated is false on the code: the Bcc field of a record is set as
a Bcc header on the composed message (outer['Bcc'] = i[3]), which is part
of the message string handed to server.sendmail, so Bcc addresses do
appear in a header of the message as transmitted. -/
theorem c3_counterexample :
    tryBody (mkPartMailer (fun _ => false) (fun _ => (none, none))) (lit ";") (lit "F")
      none (lit "S") (lit "B") [lit "a@x.com", [], [], lit "c@x.com"] =
      Except.ok
        { headers := [(lit "Subject", lit "S"), (lit "To", lit "a@x.com"),
            (lit "Bcc", lit "c@x.com"), (lit "From", lit "F")],
          rcpt := [lit "a@x.com", lit "c@x.com"], body := lit "B", parts := [] } ∧
    (lit "Bcc", lit "c@x.com") ∈
      [(lit "Subject", lit "S"), (lit "To", lit "a@x.com"),
        (lit "Bcc", lit "c@x.com"), (lit "From", lit "F")] := by
  refine ⟨by decide, by decide⟩

/-- C3 (amended): for every record, the envelope-recipient list handed to
server.sendmail is the To field split on the sub-delimiter, plus the Cc
split when Cc is non-empty, plus the Bcc split when Bcc is non-empty; the
To header of the composed message carries exactly field 0 and nothing
else; but a non-empty Bcc field is also set as a Bcc header of the
transmitted message (Bcc is disclosed, contrary to the original claim). -/
theorem c3_envelope_and_headers (mkPart : Str → Option Part) (sub from_email : Str)
    (ea ec i0 i1 i2 i3 : Str) (extra : List Str) :
    ∃ m, tryBody mkPart sub from_email none ea ec (i0 :: i1 :: i2 :: i3 :: extra) =
        Except.ok m ∧
      m.rcpt = pySplit sub i0 ++ (if i2 ≠ [] then pySplit sub i2 else [])
        ++ (if i3 ≠ [] then pySplit sub i3 else []) ∧
      (lit "To", i0) ∈ m.headers ∧
      (∀ v, (lit "To", v) ∈ m.headers → v = i0) ∧
      (i3 ≠ [] → (lit "Bcc", i3) ∈ m.headers) := by
  refine ⟨_, rfl, rfl, ?_, ?_, ?_⟩
  · simp [tryBody]
  · intro v hv
    have h1 : ¬ (lit "To" = lit "Subject") := by decide
    have h2 : ¬ (lit "To" = lit "Cc") := by decide
    have h3 : ¬ (lit "To" = lit "Bcc") := by decide
    have h4 : ¬ (lit "To" = lit "From") := by decide
    simp only [List.mem_append, List.mem_cons, List.not_mem_nil, or_false] at hv
    rcases hv with (((h | h) | h) | h) | h
    · exact absurd (congrArg Prod.fst h) h1
    · exact congrArg Prod.snd h
    · by_cases hi2 : i2 ≠ []
      · rw [if_pos hi2] at h
        exact absurd (congrArg Prod.fst (List.mem_singleton.mp h)) h2
      · rw [if_neg hi2] at h
        exact absurd h (List.not_mem_nil _)
    · by_cases hi3 : i3 ≠ []
      · rw [if_pos hi3] at h
        exact absurd (congrArg Prod.fst (List.mem_singleton.mp h)) h3
      · rw [if_neg hi3] at h
        exact absurd h (List.not_mem_nil _)
    · exact absurd (congrArg Prod.fst h) h4
  · intro h3
    simp [tryBody, h3]

/-- Witness for the amended C3 at a concrete record with Cc and Bcc set. -/
theorem c3_witness :
    ∃ m, tryBody (mkPartMailer (fun _ => true) (fun _ => (none, none))) (lit ";") (lit "F")
        none (lit "S") (lit "B")
        (lit "a1;a2" :: lit "" :: lit "cc1" :: lit "bc1" :: []) = Except.ok m ∧
      m.rcpt = pySplit (lit ";") (lit "a1;a2")
        ++ (if lit "cc1" ≠ [] then pySplit (lit ";") (lit "cc1") else [])
        ++ (if lit "bc1" ≠ [] then pySplit (lit ";") (lit "bc1") else []) ∧
      (lit "To", lit "a1;a2") ∈ m.headers ∧
      (∀ v, (lit "To", v) ∈ m.headers → v = lit "a1;a2") ∧
      (lit "bc1" ≠ [] → (lit "Bcc", lit "bc1") ∈ m.headers) :=
  c3_envelope_and_headers _ _ _ _ _ _ _ _ _ []

/-- C4: in the SMTP variant, once the substitution and the progress print
have succeeded, an exception with message e raised anywhere inside the
per-recipient try block is caught: one failure is counted, the recipient
identifier and then the error mark with the message are in the trace, the
delay sleep runs, and the loop continues with the remaining rows; a
successful attempt likewise counts one success and runs the same sleep
before the next recipient. -/
theorem c4_try_failure_caught (mkPart : Str → Option Part) (phs : List (Str × Nat))
    (sub from_email : Str) (delay : Nat) (asunto cuerpo : Str) (total idx ok err : Nat)
    (net : Option Str) (i : List Str) (ea ec i0 : Str)
    (rest : List (Option Str × List Str))
    (hmerge : mergeRecord phs i (asunto, cuerpo) = some (ea, ec))
    (hi0 : i.get? 0 = some i0) :
    (∀ e, tryBody mkPart sub from_email net ea ec i = Except.error e →
      runLoop mkPart phs sub from_email delay asunto cuerpo total
          ((net, i) :: rest) idx ok err =
        match runLoop mkPart phs sub from_email delay asunto cuerpo total
            rest (idx + 1) ok (err + 1) with
        | Except.error e2 => Except.error e2
        | Except.ok (okF, errF, evsF) =>
            Except.ok (okF, errF,
              [Ev.progress (idx + 1) total i0, Ev.errMark e, Ev.sleep delay] ++ evsF)) ∧
    (∀ m, tryBody mkPart sub from_email net ea ec i = Except.ok m →
      runLoop mkPart phs sub from_email delay asunto cuerpo total
          ((net, i) :: rest) idx ok err =
        match runLoop mkPart phs sub from_email delay asunto cuerpo total
            rest (idx + 1) (ok + 1) err with
        | Except.error e2 => Except.error e2
        | Except.ok (okF, errF, evsF) =>
            Except.ok (okF, errF,
              [Ev.progress (idx + 1) total i0, Ev.okMark, Ev.sleep delay] ++ evsF)) := by
  constructor
  · intro e htry
    simp only [runLoop, runIter, hmerge, hi0, htry]
  · intro m htry
    simp only [runLoop, runIter, hmerge, hi0, htry]

/-- Witness for C4: a concrete failing attempt is counted as the one
failure, logged after the progress line, followed by the sleep, and the
following row is still processed. -/
theorem c4_witness :
    mergeRecord [] [lit "a", [], [], []] (lit "S", lit "B") = some (lit "S", lit "B") ∧
    ([lit "a", [], [], []] : List Str).get? 0 = some (lit "a") ∧
    tryBody (mkPartMailer (fun _ => false) (fun _ => (none, none))) (lit ";") (lit "F")
      (some (lit "boom")) (lit "S") (lit "B") [lit "a", [], [], []] =
      Except.error (lit "boom") ∧
    runLoop (mkPartMailer (fun _ => false) (fun _ => (none, none))) [] (lit ";") (lit "F")
      7 (lit "S") (lit "B") 2
      [(some (lit "boom"), [lit "a", [], [], []]), (none, [lit "a", [], [], []])] 0 0 0 =
      match runLoop (mkPartMailer (fun _ => false) (fun _ => (none, none))) [] (lit ";")
          (lit "F") 7 (lit "S") (lit "B") 2 [(none, [lit "a", [], [], []])] 1 0 1 with
      | Except.error e2 => Except.error e2
      | Except.ok (okF, errF, evsF) =>
          Except.ok (okF, errF,
            [Ev.progress 1 2 (lit "a"), Ev.errMark (lit "boom"), Ev.sleep 7] ++ evsF) :=
  ⟨by decide, by decide, by decide,
    (c4_try_failure_caught (mkPartMailer (fun _ => false) (fun _ => (none, none))) []
      (lit ";") (lit "F") 7 (lit "S") (lit "B") 2 0 0 0 (some (lit "boom"))
      [lit "a", [], [], []] (lit "S") (lit "B") (lit "a") [(none, [lit "a", [], [], []])]
      (by decide) (by decide)).1 (lit "boom") (by decide)⟩

/-- C5 as stated is false on the code: in mailer_sendgrid.py the SMTP
branch ends without any exit-status check, so a completed run with a
failed send still exits 0 instead of a distinct non-zero code. -/
theorem c5_counterexample :
    runLoop (mkPartMailer (fun _ => false) (fun _ => (none, none))) [] (lit ";") (lit "F")
      0 (lit "S") (lit "B") 1 [(some (lit "boom"), [lit "a", [], [], []])] 0 0 0 =
      Except.ok (0, 1, [Ev.progress 1 1 (lit "a"), Ev.errMark (lit "boom"), Ev.sleep 0]) ∧
    sendgridSmtpMain true true true true (mkPartMailer (fun _ => false) (fun _ => (none, none)))
      [] (lit ";") (lit "F") 0 (lit "S") (lit "B")
      [(some (lit "boom"), [lit "a", [], [], []])] = 0 := by
  refine ⟨by decide, by decide⟩

/-- C5 (amended): mailer.py exits 0 when every send succeeded, 2 when the
run completed with at least one failed send, and 1 on fatal startup
errors (missing arguments, missing list or text file, unreadable
configuration); mailer_sendgrid.py shares the startup exits 1, but its
SMTP branch exits 0 even when sends failed (it has no partial-failure
exit code). -/
theorem c5_exit_codes (mkPart : Str → Option Part) (phs : List (Str × Nat))
    (sub from_email : Str) (delay : Nat) (asunto cuerpo : Str)
    (rows : List (Option Str × List Str)) (okc errc : Nat) (evs : List Ev)
    (hrun : runLoop mkPart phs sub from_email delay asunto cuerpo rows.length rows 0 0 0 =
      Except.ok (okc, errc, evs)) :
    (errc = 0 → mailerMain true true true true mkPart phs sub from_email delay
      asunto cuerpo rows = 0) ∧
    (0 < errc → mailerMain true true true true mkPart phs sub from_email delay
      asunto cuerpo rows = 2) ∧
    (∀ a l t c : Bool, (a = false ∨ l = false ∨ t = false ∨ c = false) →
      mailerMain a l t c mkPart phs sub from_email delay asunto cuerpo rows = 1 ∧
      sendgridSmtpMain a l t c mkPart phs sub from_email delay asunto cuerpo rows = 1) ∧
    sendgridSmtpMain true true true true mkPart phs sub from_email delay
      asunto cuerpo rows = 0 := by
  refine ⟨?_, ?_, ?_, ?_⟩
  · intro hz
    simp [mailerMain, hrun, hz]
  · intro hz
    simp [mailerMain, hrun, Nat.pos_iff_ne_zero.mp hz]
  · intro a l t c hcase
    rcases hcase with he | he | he | he <;> subst he <;>
      simp [mailerMain, sendgridSmtpMain]
  · simp [sendgridSmtpMain, hrun]

/-- Witness for the amended C5: a run with one success and one failure
exits 2 in mailer.py and 0 in the sendgrid variant, and a missing list
file exits 1 in both. -/
theorem c5_witness :
    runLoop (mkPartMailer (fun _ => false) (fun _ => (none, none))) [] (lit ";") (lit "F")
      0 (lit "S") (lit "B")
      [(none, [lit "a", [], [], []]), (some (lit "x"), [lit "b", [], [], []])].length
      [(none, [lit "a", [], [], []]), (some (lit "x"), [lit "b", [], [], []])] 0 0 0 =
      Except.ok (1, 1, [Ev.progress 1 2 (lit "a"), Ev.okMark, Ev.sleep 0,
        Ev.progress 2 2 (lit "b"), Ev.errMark (lit "x"), Ev.sleep 0]) ∧
    (0 < 1 → mailerMain true true true true
      (mkPartMailer (fun _ => false) (fun _ => (none, none))) [] (lit ";") (lit "F") 0
      (lit "S") (lit "B")
      [(none, [lit "a", [], [], []]), (some (lit "x"), [lit "b", [], [], []])] = 2) ∧
    sendgridSmtpMain true true true true
      (mkPartMailer (fun _ => false) (fun _ => (none, none))) [] (lit ";") (lit "F") 0
      (lit "S") (lit "B")
      [(none, [lit "a", [], [], []]), (some (lit "x"), [lit "b", [], [], []])] = 0 ∧
    mailerMain true false true true
      (mkPartMailer (fun _ => false) (fun _ => (none, none))) [] (lit ";") (lit "F") 0
      (lit "S") (lit "B")
      [(none, [lit "a", [], [], []]), (some (lit "x"), [lit "b", [], [], []])] = 1 := by
  have hrun : runLoop (mkPartMailer (fun _ => false) (fun _ => (none, none))) [] (lit ";")
      (lit "F") 0 (lit "S") (lit "B")
      [(none, [lit "a", [], [], []]), (some (lit "x"), [lit "b", [], [], []])].length
      [(none, [lit "a", [], [], []]), (some (lit "x"), [lit "b", [], [], []])] 0 0 0 =
      Except.ok (1, 1, [Ev.progress 1 2 (lit "a"), Ev.okMark, Ev.sleep 0,
        Ev.progress 2 2 (lit "b"), Ev.errMark (lit "x"), Ev.sleep 0]) := by decide
  have hc := c5_exit_codes _ _ _ _ _ _ _ _ _ _ _ hrun
  exact ⟨hrun, fun _ => hc.2.1 (by decide), hc.2.2.2,
    (hc.2.2.1 true false true true (by simp)).1⟩

/-- C6 as stated is false on the code: in the mailer_sendgrid.py SMTP
branch a specifier with the inline marker still produces disposition
attachment (the marker is never parsed there), and the filename parameter
of a nested path keeps its directory prefix instead of the terminal
component; a Content-ID is always added. -/
theorem c6_counterexample :
    mkPartSendgridSmtp (fun _ => true) (fun _ => (none, none)) (lit "i|dir/pic.png") =
      some { disposition := attachmentStr, filenameParam := lit "i|dir/pic.png",
             contentId := some (lit "<i|dir/pic.png>"), ctype := octetStream } ∧
    mkPartSendgridSmtp (fun _ => true) (fun _ => (none, none)) (lit "dir/pic.png") =
      some { disposition := attachmentStr, filenameParam := lit "dir/pic.png",
             contentId := some (lit "<dir/pic.png>"), ctype := octetStream } ∧
    lit "dir/pic.png" ≠ ntBasename (lit "dir/pic.png") ∧
    '/' ∈ lit "dir/pic.png" := by
  refine ⟨by decide, by decide, by decide, by decide⟩

/-- C6 (amended): in mailer.py, an inline-marked specifier (strictly
longer than two characters, starting with the marker) yields an existing
file a part with disposition inline, a Content-ID of the terminal
filename in angle brackets, and the filename parameter equal to
ntpath.basename of the stripped path; an unmarked specifier yields
disposition attachment with no Content-ID, again with the basename as
filename; the basename never contains a path separator, however deep the
path.  In the mailer_sendgrid.py SMTP branch the part is always
disposition attachment, always carries a Content-ID, and both it and the
filename parameter use the raw specifier with any directory prefix kept. -/
theorem c6_attachment_headers (isfile : Str → Bool)
    (guess : Str → Option Str × Option Str) (spec : Str) :
    (2 < spec.length → spec.take 2 = lit "i|" → isfile (spec.drop 2) = true →
      mkPartMailer isfile guess spec = some
        { disposition := inlineStr, filenameParam := ntBasename (spec.drop 2),
          contentId := some (('<' :: ntBasename (spec.drop 2)) ++ ['>']),
          ctype := resolveCtype guess (spec.drop 2) }) ∧
    (¬ (2 < spec.length ∧ spec.take 2 = lit "i|") → isfile spec = true →
      mkPartMailer isfile guess spec = some
        { disposition := attachmentStr, filenameParam := ntBasename spec,
          contentId := none, ctype := resolveCtype guess spec }) ∧
    (∀ c ∈ ntBasename spec, isSep c = false) ∧
    (isfile spec = true →
      mkPartSendgridSmtp isfile guess spec = some
        { disposition := attachmentStr, filenameParam := spec,
          contentId := some (('<' :: spec) ++ ['>']),
          ctype := resolveCtype guess spec }) := by
  refine ⟨?_, ?_, ntBasename_no_sep spec, ?_⟩
  · intro hlen htake hfile
    simp [mkPartMailer, parseSpec, hlen, htake, hfile]
  · intro hnot hfile
    have hne : ¬ (attachmentStr = inlineStr) := by decide
    simp [mkPartMailer, parseSpec, hnot, hfile, hne]
  · intro hfile
    simp [mkPartSendgridSmtp, hfile]

/-- Witness for the amended C6 at concrete marked and unmarked nested
paths. -/
theorem c6_witness :
    mkPartMailer (fun _ => true) (fun _ => (none, none)) (lit "i|dir/sub/pic.png") =
      some { disposition := inlineStr,
             filenameParam := ntBasename ((lit "i|dir/sub/pic.png").drop 2),
             contentId := some (('<' :: ntBasename ((lit "i|dir/sub/pic.png").drop 2)) ++ ['>']),
             ctype := resolveCtype (fun _ => (none, none)) ((lit "i|dir/sub/pic.png").drop 2) } ∧
    mkPartMailer (fun _ => true) (fun _ => (none, none)) (lit "dir/sub/doc.bin") =
      some { disposition := attachmentStr, filenameParam := ntBasename (lit "dir/sub/doc.bin"),
             contentId := none,
             ctype := resolveCtype (fun _ => (none, none)) (lit "dir/sub/doc.bin") } ∧
    mkPartSendgridSmtp (fun _ => true) (fun _ => (none, none)) (lit "dir/sub/doc.bin") =
      some { disposition := attachmentStr, filenameParam := lit "dir/sub/doc.bin",
             contentId := some (('<' :: lit "dir/sub/doc.bin") ++ ['>']),
             ctype := resolveCtype (fun _ => (none, none)) (lit "dir/sub/doc.bin") } := by
  have hc := c6_attachment_headers (fun _ => true) (fun _ => (none, none))
  exact ⟨(hc (lit "i|dir/sub/pic.png")).1 (by decide) (by decide) rfl,
    (hc (lit "dir/sub/doc.bin")).2.1 (by decide) rfl,
    (hc (lit "dir/sub/doc.bin")).2.2.2 rfl⟩

/-- C7: an attachment specifier whose (marker-stripped) path does not
resolve to an existing file contributes no part and raises nothing: the
part list of the composed message is exactly that of the remaining
specifiers, and the message is still composed and handed to the
transport. -/
theorem c7_missing_attachment_skipped (isfile : Str → Bool)
    (guess : Str → Option Str × Option Str) (sub from_email : Str) (spec : Str)
    (pre post : List Str) (hmiss : isfile (parseSpec spec).2 = false) :
    buildParts (mkPartMailer isfile guess) (pre ++ spec :: post) =
      buildParts (mkPartMailer isfile guess) pre ++
        buildParts (mkPartMailer isfile guess) post ∧
    (∀ ea ec i0 i1 i2 i3 extra, ∃ m,
      tryBody (mkPartMailer isfile guess) sub from_email none ea ec
          (i0 :: i1 :: i2 :: i3 :: extra) = Except.ok m ∧
        m.parts = buildParts (mkPartMailer isfile guess) (pySplit sub i1)) := by
  constructor
  · have hnone : mkPartMailer isfile guess spec = none := by
      simp only [mkPartMailer, hmiss]
      rfl
    simp [buildParts, List.filterMap_append, hnone]
  · intro ea ec i0 i1 i2 i3 extra
    exact ⟨_, rfl, rfl⟩

/-- Witness for C7: a concrete missing middle specifier is dropped while
the surrounding parts survive and the message still composes. -/
theorem c7_witness :
    buildParts (mkPartMailer (fun p => p ≠ lit "gone.png") (fun _ => (none, none)))
        [lit "a.bin", lit "gone.png", lit "b.bin"] =
      buildParts (mkPartMailer (fun p => p ≠ lit "gone.png") (fun _ => (none, none)))
          [lit "a.bin"] ++
        buildParts (mkPartMailer (fun p => p ≠ lit "gone.png") (fun _ => (none, none)))
          [lit "b.bin"] ∧
    (∀ ea ec i0 i1 i2 i3 extra, ∃ m,
      tryBody (mkPartMailer (fun p => p ≠ lit "gone.png") (fun _ => (none, none)))
          (lit ";") (lit "F") none ea ec (i0 :: i1 :: i2 :: i3 :: extra) = Except.ok m ∧
        m.parts = buildParts (mkPartMailer (fun p => p ≠ lit "gone.png")
          (fun _ => (none, none))) (pySplit (lit ";") i1)) :=
  c7_missing_attachment_skipped (fun p => p ≠ lit "gone.png") (fun _ => (none, none))
    (lit ";") (lit "F") (lit "gone.png") [lit "a.bin"] [lit "b.bin"] (by decide)

/-- C8: in the modelled SENDGRID block loop (the source text of this loop
does not parse, see the model), recipients are covered by fixed-size
blocks of at most 200 rows; the sequence of attempted blocks is the same
whatever block calls fail, so a failed call is reported and the loop
still advances to the remaining blocks; every row below the total lies
in some attempted block; and no sleep event occurs between blocks. -/
theorem c8_blocks (total : Nat) (blockFail : Nat → Option Str) :
    (runSendgridBlocks total blockFail).filter isAttempt =
      (runSendgridBlocks total (fun _ => none)).filter isAttempt ∧
    (∀ lo hi, BlockEv.attempt lo hi ∈ runSendgridBlocks total blockFail →
      lo ≤ hi ∧ hi ≤ lo + 199 ∧ hi ≤ total) ∧
    (∀ j, j < total → ∃ lo hi,
      BlockEv.attempt lo hi ∈ runSendgridBlocks total blockFail ∧
        lo ≤ j + 1 ∧ j + 1 ≤ hi) ∧
    (∀ n, BlockEv.sleepEv n ∉ runSendgridBlocks total blockFail) := by
  refine ⟨runSendgridBlocksAux_attempts_irrel total blockFail _ total 0,
    fun lo hi h => runSendgridBlocksAux_attempt_bounds total blockFail total 0 lo hi h,
    ?_, fun n => runSendgridBlocksAux_no_sleep total blockFail total 0 n⟩
  intro j hj
  refine runSendgridBlocksAux_covers total blockFail total 0 j (Nat.zero_le _) hj ?_
  simp only [bloque_envios]
  omega

/-- Witness for C8 at a concrete total of 450 rows with the first block
failing: the block starting at row 401 is still attempted. -/
theorem c8_witness :
    ((runSendgridBlocks 450 (fun k => if k = 0 then some (lit "x") else none)).filter
        isAttempt =
      (runSendgridBlocks 450 (fun _ => none)).filter isAttempt) ∧
    (∃ lo hi, BlockEv.attempt lo hi ∈
        runSendgridBlocks 450 (fun k => if k = 0 then some (lit "x") else none) ∧
      lo ≤ 401 ∧ 401 ≤ hi) ∧
    (∀ n, BlockEv.sleepEv n ∉
      runSendgridBlocks 450 (fun k => if k = 0 then some (lit "x") else none)) := by
  have hc := c8_blocks 450 (fun k => if k = 0 then some (lit "x") else none)
  exact ⟨hc.1, hc.2.2.1 400 (by decide), hc.2.2.2⟩

/-- C9: the placeholder map built from a header whose last two columns are
distinct tokens lists them in ascending column order (dict insertion
order); substitution is sequential in that order, so when the value for
the earlier token introduces the later token it is present before the
later pass, which then removes every occurrence of the later token
(provided its own value cannot re-create it), while the value for the
later token that contains the earlier token leaves that text literally in
the final output. -/
theorem c9_sequential_order (h0 h1 h2 h3 k1 k2 : Str) (i : List Str) (s v1 v2 : Str)
    (hn0 : ¬ (pyStartswith (lit "||") h0 = true ∧ pyEndswith (lit "||") h0 = true))
    (hn1 : ¬ (pyStartswith (lit "||") h1 = true ∧ pyEndswith (lit "||") h1 = true))
    (hn2 : ¬ (pyStartswith (lit "||") h2 = true ∧ pyEndswith (lit "||") h2 = true))
    (hn3 : ¬ (pyStartswith (lit "||") h3 = true ∧ pyEndswith (lit "||") h3 = true))
    (hk1 : pyStartswith (lit "||") k1 = true ∧ pyEndswith (lit "||") k1 = true)
    (hk2 : pyStartswith (lit "||") k2 = true ∧ pyEndswith (lit "||") k2 = true)
    (hne : k1 ≠ k2) (hv1 : i.get? 4 = some v1) (hv2 : i.get? 5 = some v2) :
    buildPlaceholders [h0, h1, h2, h3, k1, k2] = [(k1, 4), (k2, 5)] ∧
    applyPlaceholders [(k1, 4), (k2, 5)] i s =
      some (pyReplace k2 v2 (pyReplace k1 v1 s)) ∧
    (k2 <:+: v1 → k1 <:+: s → k2 <:+: pyReplace k1 v1 s) ∧
    (v2 ≠ [] → (∀ c ∈ v2, c ∉ k2) →
      ¬ k2 <:+: pyReplace k2 v2 (pyReplace k1 v1 s)) ∧
    (k1 <:+: v2 → k2 <:+: pyReplace k1 v1 s →
      k1 <:+: pyReplace k2 v2 (pyReplace k1 v1 s)) := by
  have hk1n : k1 ≠ [] := wrapped_ne_nil hk1.1
  have hk2n : k2 ≠ [] := wrapped_ne_nil hk2.1
  refine ⟨?_, ?_, ?_, ?_, ?_⟩
  · have henum : ([h0, h1, h2, h3, k1, k2] : List Str).enum =
        [(0, h0), (1, h1), (2, h2), (3, h3), (4, k1), (5, k2)] := rfl
    have hbeq : (k1 == k2) = false := beq_eq_false_iff_ne.mpr hne
    simp only [buildPlaceholders, henum, List.foldl_cons, List.foldl_nil]
    rw [if_neg hn0, if_neg hn1, if_neg hn2, if_neg hn3, if_pos hk1, if_pos hk2]
    simp [dictInsert, hbeq]
  · simp only [applyPlaceholders, hv1, hv2]
  · intro h21 h1s
    exact h21.trans (rep_infix_pyReplace hk1n h1s)
  · intro hv2ne hdisj
    exact pyReplace_no_self hk2n hv2ne hdisj _
  · intro h12 h2x
    exact h12.trans (rep_infix_pyReplace hk2n h2x)

/-- Witness for C9 at a concrete header, record and template: the later
token introduced by the earlier substitution is present after the first
pass and gone after the second, while the earlier token introduced by the
later substitution survives. -/
theorem c9_witness :
    buildPlaceholders
        [lit "to", lit "adjuntos", lit "cc", lit "bcc", lit "||a||", lit "||b||"] =
      [(lit "||a||", 4), (lit "||b||", 5)] ∧
    applyPlaceholders [(lit "||a||", 4), (lit "||b||", 5)]
        [lit "u", [], [], [], lit "x||b||y", lit "zw"] (lit "s ||a|| e") =
      some (pyReplace (lit "||b||") (lit "zw")
        (pyReplace (lit "||a||") (lit "x||b||y") (lit "s ||a|| e"))) ∧
    (lit "||b||" <:+: lit "x||b||y" → lit "||a||" <:+: lit "s ||a|| e" →
      lit "||b||" <:+: pyReplace (lit "||a||") (lit "x||b||y") (lit "s ||a|| e")) ∧
    (lit "zw" ≠ [] → (∀ c ∈ lit "zw", c ∉ lit "||b||") →
      ¬ lit "||b||" <:+: pyReplace (lit "||b||") (lit "zw")
        (pyReplace (lit "||a||") (lit "x||b||y") (lit "s ||a|| e"))) ∧
    (lit "||a||" <:+: lit "zw" →
      lit "||b||" <:+: pyReplace (lit "||a||") (lit "x||b||y") (lit "s ||a|| e") →
      lit "||a||" <:+: pyReplace (lit "||b||") (lit "zw")
        (pyReplace (lit "||a||") (lit "x||b||y") (lit "s ||a|| e"))) :=
  c9_sequential_order (lit "to") (lit "adjuntos") (lit "cc") (lit "bcc")
    (lit "||a||") (lit "||b||") [lit "u", [], [], [], lit "x||b||y", lit "zw"]
    (lit "s ||a|| e") (lit "x||b||y") (lit "zw")
    (by decide) (by decide) (by decide) (by decide) (by decide) (by decide)
    (by decide) (by decide) (by decide)

/-- C10: the inline marker is recognized only for specifiers strictly
longer than two characters whose first two characters are the marker; a
specifier of length at most two, or one not starting with the marker, and
in particular the bare two-character marker itself, is processed as a
regular attachment whose path is the whole specifier (which is also the
path checked for existence). -/
theorem c10_marker_boundary (isfile : Str → Bool)
    (guess : Str → Option Str × Option Str) :
    (∀ spec : Str, spec.length ≤ 2 → parseSpec spec = (attachmentStr, spec)) ∧
    (∀ spec : Str, ¬ spec.take 2 = lit "i|" → parseSpec spec = (attachmentStr, spec)) ∧
    parseSpec (lit "i|") = (attachmentStr, lit "i|") ∧
    (∀ spec : Str, 2 < spec.length → spec.take 2 = lit "i|" →
      parseSpec spec = (inlineStr, spec.drop 2)) ∧
    (isfile (lit "i|") = true →
      mkPartMailer isfile guess (lit "i|") = some
        { disposition := attachmentStr, filenameParam := ntBasename (lit "i|"),
          contentId := none, ctype := resolveCtype guess (lit "i|") }) ∧
    (isfile (lit "i|") = false → mkPartMailer isfile guess (lit "i|") = none) := by
  have hp : parseSpec (lit "i|") = (attachmentStr, lit "i|") := by decide
  have hne : ¬ (attachmentStr = inlineStr) := by decide
  refine ⟨?_, ?_, hp, ?_, ?_, ?_⟩
  · intro spec hle
    have hcond : ¬ (2 < spec.length ∧ spec.take 2 = lit "i|") := by
      intro hc
      omega
    simp [parseSpec, hcond]
  · intro spec htk
    have hcond : ¬ (2 < spec.length ∧ spec.take 2 = lit "i|") := by
      intro hc
      exact htk hc.2
    simp [parseSpec, hcond]
  · intro spec hlen htake
    simp [parseSpec, hlen, htake]
  · intro hfile
    simp [mkPartMailer, hp, hfile, hne]
  · intro hfile
    simp [mkPartMailer, hp, hfile]

/-- Witness for C10: the bare marker is an attachment with itself as path,
and a three-character marked specifier is inline. -/
theorem c10_witness :
    parseSpec (lit "i|") = (attachmentStr, lit "i|") ∧
    parseSpec (lit "i|x") = (inlineStr, (lit "i|x").drop 2) ∧
    mkPartMailer (fun _ => true) (fun _ => (none, none)) (lit "i|") = some
      { disposition := attachmentStr, filenameParam := ntBasename (lit "i|"),
        contentId := none,
        ctype := resolveCtype (fun _ => (none, none)) (lit "i|") } := by
  have hc := c10_marker_boundary (fun _ => true) (fun _ => (none, none))
  exact ⟨hc.2.2.1, hc.2.2.2.1 (lit "i|x") (by decide) (by decide), hc.2.2.2.2.1 rfl⟩

end Mailer
